import Mathlib

/-!
Verification of the BearAI generative-media adapter (`geminiService`) and the
live-audio bridge in `App.tsx`, as a shallow embedding in Lean 4.

The embedding models:
* `getAI` and its credential check (`process.env.GEMINI_API_KEY`, with JS
  falsiness: a missing key and the empty string both fail);
* `editCode`'s response normalization
  (`response.text?.replace(/```[a-z]*\n?|```/gi, '').trim() || code`);
* `generateImage`'s image-part extraction and data-URI formatting;
* `generateVideo`'s submit / sleep(5000) / `getVideosOperation` polling loop,
  recorded as an explicit event trace;
* `analyzeImage`'s `imageBuffer.split(',')[1]` payload extraction;
* the live-audio sample quantization (`Math.max(-1, Math.min(1, x)) * 0x7FFF`
  stored into an `Int16Array`) and decoding (`pcm[i] / 0x7FFF`), over exact
  rational arithmetic (every value appearing in the claims is exactly
  representable in binary64, and the multiply by 0x7FFF of a clamped float32
  sample is exact, so the rational model agrees with the float semantics on
  all claim-relevant points);
* the transcript accumulation `setLiveTranscription(prev => prev + ' ' + text)`.

Provider responses, poll results and environment are explicit parameters, so
every capability is a pure function from (environment, provider behaviour,
arguments) to (network-event trace, result).
-/

namespace BearAI

/-- Error taxonomy of the spec: MissingCredential ("GEMINI_API_KEY is not set"),
NoResultProduced ("No image generated"), GenerationFailed ("Video generation
failed"), and an opaque passthrough for provider/network errors. -/
inductive GenError where
  | MissingCredential
  | NoResultProduced
  | GenerationFailed
  | NetworkOrProviderError (msg : String)
deriving Repr, DecidableEq

/-- Observable external events issued by the service functions. -/
inductive Ev where
  | generateContent
  | chatSendMessage
  | generateVideos
  | getVideosOperation
  | fetchDownload (uri : String)
  | liveConnect
  | sleep (ms : Nat)
deriving Repr, DecidableEq

/-- Model of `getAI`: reads `process.env.GEMINI_API_KEY` and throws when it is falsy
(absent or the empty string): `if (!apiKey) throw new Error(...)`. -/
def getAI (env : Option String) : Except GenError String :=
  match env with
  | none => Except.error GenError.MissingCredential
  | some k => if k = "" then Except.error GenError.MissingCredential else Except.ok k

/-! ### editCode response normalization

`response.text?.replace(/```[a-z]*\n?|```/gi, '').trim() || code`.

The regex scanner removes, left to right, each occurrence of three backticks
followed by a maximal (possibly empty) run of ASCII letters (`/i` makes
`[a-z]` match both cases) and an optional newline; unmatched characters are
kept.  `.trim()` strips whitespace from both ends; `|| code` returns the
original code when the result is the empty string (JS falsiness), or when
`response.text` was absent (optional chaining). -/

/-- The backtick character. -/
def tick : Char := Char.ofNat 96

/-- ASCII letter test for the `[a-z]` class under the `/i` flag. -/
def isAsciiLetter (c : Char) : Bool :=
  (decide ('a' ≤ c) && decide (c ≤ 'z')) ||
  (decide ('A' ≤ c) && decide (c ≤ 'Z'))

/-- Greedy `[a-z]*`: drop the maximal run of ASCII letters. -/
def dropLetters : List Char → List Char
  | [] => []
  | c :: rest => if isAsciiLetter c then dropLetters rest else c :: rest

/-- Optional `\n?`: drop one newline if present. -/
def dropNl : List Char → List Char
  | [] => []
  | c :: rest => if c = '\n' then rest else c :: rest

theorem dropLetters_length_le (l : List Char) : (dropLetters l).length ≤ l.length := by
  induction l with
  | nil => simp [dropLetters]
  | cons c rest ih =>
    simp only [dropLetters]
    split
    · exact Nat.le_succ_of_le ih
    · exact Nat.le_refl _

theorem dropNl_length_le (l : List Char) : (dropNl l).length ≤ l.length := by
  cases l with
  | nil => simp [dropNl]
  | cons c rest =>
    simp only [dropNl]
    split
    · exact Nat.le_succ _
    · exact Nat.le_refl _

/-- The global fence-removing replace: scan left to right; at a match of
three backticks, consume them together with `[a-z]*\n?`; otherwise emit one
character and continue. -/
def stripFences : List Char → List Char
  | [] => []
  | [c] => [c]
  | [c, d] => [c, d]
  | c :: d :: e :: rest =>
    if c = tick ∧ d = tick ∧ e = tick then
      stripFences (dropNl (dropLetters rest))
    else
      c :: stripFences (d :: e :: rest)
termination_by l => l.length
decreasing_by
  · have h1 := dropLetters_length_le rest
    have h2 := dropNl_length_le (dropLetters rest)
    simp only [List.length_cons]
    omega
  · simp only [List.length_cons]
    omega

/-- Whitespace removed by JS `String.prototype.trim`. -/
def isJsSpace (c : Char) : Bool :=
  c = ' ' || c = '\t' || c = '\n' || c = '\r' ||
  c = Char.ofNat 11 || c = Char.ofNat 12 || c = Char.ofNat 160 || c = Char.ofNat 65279

/-- JS `trim`: drop whitespace at both ends. -/
def trimWs (l : List Char) : List Char :=
  ((l.dropWhile isJsSpace).reverse.dropWhile isJsSpace).reverse

/-- Fence stripping followed by trimming, on a response text. -/
def stripAndTrim (t : String) : List Char :=
  trimWs (stripFences t.data)

/-- The value `editCode` resolves with, as a function of `response.text`
(which may be absent) and the original `code` argument. -/
def editCodeResult (respText : Option String) (code : String) : String :=
  match respText with
  | none => code
  | some t =>
    let s := stripAndTrim t
    if s.isEmpty then code else String.mk s

/-- Does the list begin with three backticks (the start of a fence marker)? -/
def startsFence (l : List Char) : Bool :=
  match l with
  | a :: b :: c :: _ => decide (a = tick) && decide (b = tick) && decide (c = tick)
  | _ => false

/-- Does the list begin with two backticks? -/
def leadTwo (l : List Char) : Bool :=
  match l with
  | a :: b :: _ => decide (a = tick) && decide (b = tick)
  | _ => false

/-- Does the list contain a Markdown code-fence marker (three consecutive
backticks) anywhere? -/
def hasFence : List Char → Bool
  | [] => false
  | c :: rest => startsFence (c :: rest) || hasFence rest

theorem startsFence_cons (c : Char) (t : List Char) :
    startsFence (c :: t) = (decide (c = tick) && leadTwo t) := by
  match t with
  | [] => simp [startsFence, leadTwo]
  | [b] => simp [startsFence, leadTwo]
  | b :: e :: t' => simp [startsFence, leadTwo, Bool.and_assoc]

theorem leadTwo_cons (c : Char) (t : List Char) :
    leadTwo (c :: t) = (decide (c = tick) && (t.headD ' ' = tick ∧ t ≠ [])) := by
  match t with
  | [] => simp [leadTwo]
  | b :: t' => simp [leadTwo, List.headD]

/-- The fence-removing scan never leaves two leading backticks if its input
did not start with two backticks. -/
theorem leadTwo_stripFences (l : List Char) (h : leadTwo l = false) :
    leadTwo (stripFences l) = false := by
  match l with
  | [] => simpa [stripFences] using h
  | [c] => simpa [stripFences] using h
  | [c, d] => simpa [stripFences] using h
  | c :: d :: e :: rest =>
    simp only [leadTwo, Bool.and_eq_false_iff, decide_eq_false_iff_not] at h
    have hcd : ¬(c = tick ∧ d = tick ∧ e = tick) := by tauto
    rw [stripFences, if_neg hcd]
    rcases h with hc | hd
    · match hS : stripFences (d :: e :: rest) with
      | [] => simp [leadTwo]
      | x :: xs => simp [leadTwo, hc]
    · have hS : stripFences (d :: e :: rest) =
          d :: stripFences (e :: rest) := by
        match rest with
        | [] => simp [stripFences]
        | r :: rest' =>
          rw [stripFences, if_neg]
          intro hdd
          exact hd hdd.1
      rw [hS]
      simp [leadTwo, hd]

theorem hasFence_nil : hasFence [] = false := rfl

theorem hasFence_cons (c : Char) (t : List Char) :
    hasFence (c :: t) = (startsFence (c :: t) || hasFence t) := rfl

/-- The output of the fence-removing scan contains no fence marker. -/
theorem hasFence_stripFences_aux :
    ∀ n l, List.length l ≤ n → hasFence (stripFences l) = false := by
  intro n
  induction n with
  | zero =>
    intro l hl
    have : l = [] := List.eq_nil_of_length_eq_zero (Nat.le_zero.mp hl)
    subst this
    simp [stripFences, hasFence]
  | succ n ih =>
    intro l hl
    match l with
    | [] => simp [stripFences, hasFence]
    | [c] => simp [stripFences, hasFence, startsFence]
    | [c, d] => simp [stripFences, hasFence, startsFence]
    | c :: d :: e :: rest =>
      by_cases hf : c = tick ∧ d = tick ∧ e = tick
      · rw [stripFences, if_pos hf]
        apply ih
        have h1 := dropLetters_length_le rest
        have h2 := dropNl_length_le (dropLetters rest)
        simp only [List.length_cons] at hl
        omega
      · rw [stripFences, if_neg hf]
        rw [hasFence_cons, startsFence_cons]
        have hrec : hasFence (stripFences (d :: e :: rest)) = false := by
          apply ih
          simp only [List.length_cons] at hl ⊢
          omega
        rw [hrec, Bool.or_false]
        by_cases hc : c = tick
        · have hde : leadTwo (d :: e :: rest) = false := by
            simp only [leadTwo, Bool.and_eq_false_iff, decide_eq_false_iff_not]
            by_cases hd : d = tick
            · right; intro he; exact hf ⟨hc, hd, he⟩
            · left; exact hd
          rw [leadTwo_stripFences _ hde]
          simp
        · simp [hc]

theorem hasFence_stripFences (l : List Char) : hasFence (stripFences l) = false :=
  hasFence_stripFences_aux l.length l (Nat.le_refl _)

/-- Removing characters at the front cannot introduce a fence marker. -/
theorem hasFence_of_append_right (x y : List Char)
    (h : hasFence (x ++ y) = false) : hasFence y = false := by
  induction x with
  | nil => exact h
  | cons c x' ih =>
    rw [List.cons_append, hasFence_cons, Bool.or_eq_false_iff] at h
    exact ih h.2

theorem startsFence_append (x y : List Char) (h : startsFence x = true) :
    startsFence (x ++ y) = true := by
  match x with
  | [] => simp [startsFence] at h
  | [a] => simp [startsFence] at h
  | [a, b] => simp [startsFence] at h
  | a :: b :: c :: t => simpa [startsFence] using h

/-- Removing characters at the back cannot introduce a fence marker. -/
theorem hasFence_of_append_left (x y : List Char)
    (h : hasFence (x ++ y) = false) : hasFence x = false := by
  induction x with
  | nil => rfl
  | cons c x' ih =>
    rw [List.cons_append, hasFence_cons, Bool.or_eq_false_iff] at h
    rw [hasFence_cons, Bool.or_eq_false_iff]
    refine ⟨?_, ih h.2⟩
    by_cases hs : startsFence (c :: x') = true
    · have := startsFence_append (c :: x') y hs
      rw [List.cons_append] at this
      rw [this] at h
      exact absurd h.1 (by simp)
    · simpa using hs

/-- Trimming whitespace from both ends cannot introduce a fence marker. -/
theorem hasFence_trimWs (l : List Char) (h : hasFence l = false) :
    hasFence (trimWs l) = false := by
  unfold trimWs
  set s1 := l.dropWhile isJsSpace with hs1
  have hsplit : l.takeWhile isJsSpace ++ s1 = l := List.takeWhile_append_dropWhile ..
  have h1 : hasFence s1 = false := by
    apply hasFence_of_append_right (l.takeWhile isJsSpace) s1
    rw [hsplit]; exact h
  set s2 := s1.reverse.dropWhile isJsSpace with hs2
  have hsplit2 : s1.reverse.takeWhile isJsSpace ++ s2 = s1.reverse :=
    List.takeWhile_append_dropWhile ..
  have hs1eq : s1 = s2.reverse ++ (s1.reverse.takeWhile isJsSpace).reverse := by
    have := congrArg List.reverse hsplit2
    rw [List.reverse_append, List.reverse_reverse] at this
    exact this.symm
  apply hasFence_of_append_left s2.reverse (s1.reverse.takeWhile isJsSpace).reverse
  rw [← hs1eq]
  exact h1

/-- The fence-stripped, trimmed response text contains no fence marker. -/
theorem hasFence_stripAndTrim (t : String) : hasFence (stripAndTrim t) = false :=
  hasFence_trimWs _ (hasFence_stripFences t.data)

/-! ### The capability functions of `geminiService`

Each capability takes the environment (`process.env.GEMINI_API_KEY`) and the
provider's behaviour as explicit parameters, and returns the list of external
calls it issued together with its result.  `getAI()` runs first in every
capability, so a missing credential yields an error with an empty call
trace. -/

/-- Model of `editCode(code, instruction, filename)`: one `generateContent` call whose
response text is normalized by `editCodeResult`. -/
def editCode (env : Option String) (respText : Option String)
    (code instruction filename : String) : List Ev × Except GenError String :=
  match getAI env with
  | Except.error e => ([], Except.error e)
  | Except.ok _ => ([Ev.generateContent], Except.ok (editCodeResult respText code))

/-- Model of `chat(message)`: a fresh chat context, one `sendMessage` call; returns the
response text (possibly absent) and the grounding chunks (`?? []`). -/
def chat (env : Option String) (respText : Option String)
    (grounding : Option (List String)) (message : String) :
    List Ev × Except GenError (Option String × List String) :=
  match getAI env with
  | Except.error e => ([], Except.error e)
  | Except.ok _ => ([Ev.chatSendMessage], Except.ok (respText, grounding.getD []))

/-- A response part as consumed by `generateImage`: `inlineData`, when
present, carries the base64 payload (`inlineData.data`). -/
structure Part where
  inlineData : Option String
deriving Repr, DecidableEq

/-- Model of `parts.find(p => p.inlineData)`: the first part carrying inline data. -/
def firstImagePart (parts : List Part) : Option Part :=
  parts.find? (fun p => p.inlineData.isSome)

/-- Model of `generateImage(prompt, aspectRatio, imageSize)`: one `generateContent`
call; on a part with inline data, resolve with the
`data:image/png;base64,`-prefixed payload; otherwise throw
`"No image generated"`.  `resp = none` models an absent
`candidates?.[0]?.content`. -/
def generateImage (env : Option String) (resp : Option (List Part))
    (prompt aspectRatio imageSize : String) : List Ev × Except GenError String :=
  match getAI env with
  | Except.error e => ([], Except.error e)
  | Except.ok _ =>
    ([Ev.generateContent],
      match resp with
      | none => Except.error GenError.NoResultProduced
      | some parts =>
        match firstImagePart parts with
        | some p =>
          match p.inlineData with
          | some d => Except.ok ("data:image/png;base64," ++ d)
          | none => Except.error GenError.NoResultProduced
        | none => Except.error GenError.NoResultProduced)

/-- A video operation as observed by the poll loop:
`{ done, response?.generatedVideos?.[0]?.video?.uri }`. -/
structure VideoOp where
  done : Bool
  resultUri : Option String
deriving Repr, DecidableEq

/-- Models `URL.createObjectURL` applied to the blob fetched from `uri`: an
opaque locally-resolvable reference derived from the downloaded asset. -/
def createObjectURL (uri : String) : String :=
  "blob:" ++ uri

/-- The `while (!operation.done)` loop: while the current operation is not
done, sleep 5000 ms and re-fetch the operation status
(`ai.operations.getVideosOperation`).  `polls` lists the successive results
of the status re-fetches (`Except.error` = the re-fetch threw).  Returns
`none` when the supplied poll results are exhausted with the operation still
pending (the real loop would keep polling: it is unbounded), otherwise the
event trace of the loop and the terminal outcome. -/
def pollTrace : VideoOp → List (Except String VideoOp) →
    Option (List Ev × Except String VideoOp)
  | op, [] => if op.done then some ([], Except.ok op) else none
  | op, Except.error e :: _ =>
    if op.done then some ([], Except.ok op)
    else some ([Ev.sleep 5000, Ev.getVideosOperation], Except.error e)
  | op, Except.ok p :: rest =>
    if op.done then some ([], Except.ok op)
    else (pollTrace p rest).map
      (fun tr => (Ev.sleep 5000 :: Ev.getVideosOperation :: tr.1, tr.2))

/-- Model of `generateVideo(prompt, aspectRatio)`: submit the job (`generateVideos`),
run the poll loop, then read `operation.response?.generatedVideos?.[0]?.video?.uri`;
the guard `if (!downloadLink) throw` is JS falsiness, so an absent URI and the
empty string both throw `"Video generation failed"` without downloading; a
truthy URI is fetched once and the call resolves with an object URL. -/
def generateVideo (env : Option String) (submitR : Except String VideoOp)
    (polls : List (Except String VideoOp)) :
    Option (List Ev × Except GenError String) :=
  match getAI env with
  | Except.error e => some ([], Except.error e)
  | Except.ok _ =>
    match submitR with
    | Except.error e =>
      some ([Ev.generateVideos], Except.error (GenError.NetworkOrProviderError e))
    | Except.ok op0 =>
      (pollTrace op0 polls).map (fun tr =>
        match tr.2 with
        | Except.error e =>
          (Ev.generateVideos :: tr.1, Except.error (GenError.NetworkOrProviderError e))
        | Except.ok f =>
          match f.resultUri with
          | none => (Ev.generateVideos :: tr.1, Except.error GenError.GenerationFailed)
          | some uri =>
            if uri = "" then
              (Ev.generateVideos :: tr.1, Except.error GenError.GenerationFailed)
            else
              (Ev.generateVideos :: tr.1 ++ [Ev.fetchDownload uri],
                Except.ok (createObjectURL uri)))

/-- Number of status re-fetches (`getVideosOperation` calls) in a trace. -/
def countChecks (t : List Ev) : Nat :=
  t.countP (fun e => decide (e = Ev.getVideosOperation))

/-- JS `String.prototype.split(',')` on the character list of a string. -/
def splitComma : List Char → List (List Char)
  | [] => [[]]
  | c :: rest =>
    if c = ',' then [] :: splitComma rest
    else
      match splitComma rest with
      | f :: r => (c :: f) :: r
      | [] => [[c]]

/-- Model of `imageBuffer.split(',')[1]`: the payload `analyzeImage` sends as
`inlineData.data` (absent when the split has fewer than two fields). -/
def analyzeImagePayload (imageBuffer : String) : Option String :=
  ((splitComma imageBuffer.data).get? 1).map String.mk

/-- The request `analyzeImage` issues: inline data plus the prompt text. -/
structure AnalyzeRequest where
  payload : Option String
  mimeType : String
  prompt : String
deriving Repr, DecidableEq

/-- Model of `analyzeImage(imageBuffer, prompt)`: one `generateContent` call carrying
`{ inlineData: { data: imageBuffer.split(',')[1], mimeType: "image/png" } }`
and the prompt; resolves with `response.text` (possibly absent).  The middle
component is the request actually sent (`none` when no call was issued). -/
def analyzeImage (env : Option String) (respText : Option String)
    (imageBuffer prompt : String) :
    List Ev × Option AnalyzeRequest × Except GenError (Option String) :=
  match getAI env with
  | Except.error e => ([], none, Except.error e)
  | Except.ok _ =>
    ([Ev.generateContent],
      some ⟨analyzeImagePayload imageBuffer, "image/png", prompt⟩,
      Except.ok respText)

/-- Model of `connectLive(callbacks)`: opens the live session (`ai.live.connect`). -/
def connectLive (env : Option String) : List Ev × Except GenError Unit :=
  match getAI env with
  | Except.error e => ([], Except.error e)
  | Except.ok _ => ([Ev.liveConnect], Except.ok ())

/-! ### Live-audio sample quantization (App.tsx, `toggleLiveVoice`)

Encode (`onaudioprocess`): `pcmData[i] = Math.max(-1, Math.min(1, x)) * 0x7FFF`
stored into an `Int16Array` (ToInt16: truncate toward zero, then wrap modulo
2^16 into [-2^15, 2^15)).  Decode (`onmessage`): `float32[i] = pcm[i] / 0x7FFF`.
Samples are modelled as exact rationals: every sample value the claims
mention is exactly representable in binary64, and multiplying a clamped
float32 sample (≤ 24 significant bits) by 0x7FFF (15 bits) is exact in
binary64, so the rational model agrees with the JS float semantics at every
claim-relevant point. -/

/-- Clamp step `Math.max(-1, Math.min(1, x))`. -/
def clampSample (x : ℚ) : ℚ := max (-1) (min 1 x)

/-- Truncation toward zero (the first step of JS ToInt16). -/
def truncQ (x : ℚ) : ℤ := if 0 ≤ x then ⌊x⌋ else ⌈x⌉

/-- Wrap an integer modulo 2^16 into [-2^15, 2^15) (the second step of JS
ToInt16, performed by the `Int16Array` store). -/
def toInt16 (n : ℤ) : ℤ := (n + 32768) % 65536 - 32768

/-- The encode step: clamp, scale by 0x7FFF, store as a 16-bit integer. -/
def encodeSample (x : ℚ) : ℤ := toInt16 (truncQ (clampSample x * 32767))

/-- The decode step: `pcm[i] / 0x7FFF`. -/
def decodeSample (n : ℤ) : ℚ := (n : ℚ) / 32767

/-- The transcript update of the live-session `onmessage` handler:
`if (message...text) setLiveTranscription(prev => prev + ' ' + text)`.
The guard is JS truthiness, so an absent or empty text leaves the
transcript unchanged. -/
def transcriptAfterMessage (prev : String) (partText : Option String) : String :=
  match partText with
  | some txt => if txt = "" then prev else prev ++ " " ++ txt
  | none => prev

/-! ### Claim theorems -/

/-- Claim C1, counterexample: with an absent response text and an original
code argument that itself contains a fence marker, `editCode` returns the
original code, so the returned string does contain a Markdown code-fence
marker, contrary to the claim. -/
theorem editCodeResult_fence_cex :
    editCodeResult none "```js" = "```js" ∧ hasFence ("```js").data = true := by
  exact ⟨rfl, by decide⟩

/-- Claim C1, amended: `editCode` returns either the original code argument
or the fence-stripped, trimmed response text, and in the latter case the
returned string contains no Markdown code-fence marker.  (The original-code
fallback is returned verbatim and may contain fence markers.) -/
theorem editCodeResult_unfenced_or_original (rt : Option String) (code : String) :
    editCodeResult rt code = code ∨
    ∃ t, rt = some t ∧ editCodeResult rt code = String.mk (stripAndTrim t) ∧
      hasFence (stripAndTrim t) = false := by
  match rt with
  | none => exact Or.inl rfl
  | some t =>
    by_cases h : (stripAndTrim t).isEmpty
    · exact Or.inl (by simp [editCodeResult, h])
    · exact Or.inr ⟨t, rfl, by simp [editCodeResult, h], hasFence_stripAndTrim t⟩

/-- Claim C8: whenever the provider response text is absent, or
fence-stripping and trimming it yields the empty string (in particular when
it is empty), `editCode` returns the original code argument unchanged. -/
theorem editCodeResult_empty_returns_original (code : String) (rt : Option String)
    (h : rt = none ∨ ∃ t, rt = some t ∧ stripAndTrim t = []) :
    editCodeResult rt code = code := by
  rcases h with h | ⟨t, ht, he⟩
  · subst h; rfl
  · subst ht; simp [editCodeResult, he]

/-- Witness for C8: a response consisting only of a fence wrapper strips and
trims to the empty string, so the original code is preserved; likewise for an
absent response. -/
theorem editCodeResult_empty_returns_original_witness :
    editCodeResult (some "```ts\n```") "keep me" = "keep me" :=
  editCodeResult_empty_returns_original "keep me" (some "```ts\n```")
    (Or.inr ⟨"```ts\n```", rfl,
      by simp +decide [stripAndTrim, stripFences, trimWs, dropLetters, dropNl, tick,
        isAsciiLetter, isJsSpace]⟩)

/-- Claim C2: with a valid key, a submitted operation that is not yet done,
and status re-fetches reporting done=false, done=false, then done=true with a
result URI (truthy: a present, non-empty string, since `if (!downloadLink)`
rejects the empty string), `generateVideo` issues exactly 3 status checks,
each preceded by the configured 5000 ms sleep, then downloads the asset and
resolves. -/
theorem generateVideo_three_checks (key uri : String) (hk : key ≠ "")
    (op0 p1 p2 p3 : VideoOp) (rest : List (Except String VideoOp))
    (h0 : op0.done = false) (h1 : p1.done = false) (h2 : p2.done = false)
    (h3 : p3.done = true) (hu : p3.resultUri = some uri) (huri : uri ≠ "") :
    generateVideo (some key) (Except.ok op0)
        (Except.ok p1 :: Except.ok p2 :: Except.ok p3 :: rest) =
      some ([Ev.generateVideos,
             Ev.sleep 5000, Ev.getVideosOperation,
             Ev.sleep 5000, Ev.getVideosOperation,
             Ev.sleep 5000, Ev.getVideosOperation,
             Ev.fetchDownload uri], Except.ok (createObjectURL uri)) ∧
    countChecks [Ev.generateVideos,
             Ev.sleep 5000, Ev.getVideosOperation,
             Ev.sleep 5000, Ev.getVideosOperation,
             Ev.sleep 5000, Ev.getVideosOperation,
             Ev.fetchDownload uri] = 3 := by
  have hp3 : pollTrace p3 rest = some ([], Except.ok p3) := by
    cases rest with
    | nil => rw [pollTrace, if_pos h3]
    | cons hd tl =>
      cases hd with
      | error e => rw [pollTrace, if_pos h3]
      | ok p => rw [pollTrace, if_pos h3]
  constructor
  · simp [generateVideo, pollTrace, getAI, hk, h0, h1, h2, hp3, hu, huri]
  · simp [countChecks, List.countP_cons, List.countP_nil]

/-- Witness for C2 at a concrete mock: three polled statuses false, false,
true-with-URI give exactly the 3-check trace. -/
theorem generateVideo_three_checks_witness :
    generateVideo (some "k") (Except.ok ⟨false, none⟩)
        [Except.ok ⟨false, none⟩, Except.ok ⟨false, none⟩, Except.ok ⟨true, some "u"⟩] =
      some ([Ev.generateVideos,
             Ev.sleep 5000, Ev.getVideosOperation,
             Ev.sleep 5000, Ev.getVideosOperation,
             Ev.sleep 5000, Ev.getVideosOperation,
             Ev.fetchDownload "u"], Except.ok (createObjectURL "u")) :=
  (generateVideo_three_checks "k" "u" (by decide) ⟨false, none⟩ ⟨false, none⟩
    ⟨false, none⟩ ⟨true, some "u"⟩ [] rfl rfl rfl rfl rfl (by decide)).1

/-- Every event of the poll loop itself is a sleep or a status check. -/
theorem pollTrace_events (op0 : VideoOp) (polls : List (Except String VideoOp))
    (t : List Ev) (r : Except String VideoOp)
    (h : pollTrace op0 polls = some (t, r)) :
    ∀ e ∈ t, e = Ev.sleep 5000 ∨ e = Ev.getVideosOperation := by
  induction polls generalizing op0 t r with
  | nil =>
    rw [pollTrace] at h
    by_cases hd : op0.done = true
    · rw [if_pos hd] at h
      injection h with h2
      injection h2 with h3 h4
      subst h3
      intro e he
      exact absurd he (List.not_mem_nil e)
    · rw [if_neg hd] at h
      exact Option.noConfusion h
  | cons head rest ih =>
    cases head with
    | error err =>
      rw [pollTrace] at h
      by_cases hd : op0.done = true
      · rw [if_pos hd] at h
        injection h with h2
        injection h2 with h3 h4
        subst h3
        intro e he
        exact absurd he (List.not_mem_nil e)
      · rw [if_neg hd] at h
        injection h with h2
        injection h2 with h3 h4
        subst h3
        intro e he
        rcases List.mem_cons.mp he with rfl | he2
        · exact Or.inl rfl
        · rcases List.mem_cons.mp he2 with rfl | he3
          · exact Or.inr rfl
          · exact absurd he3 (List.not_mem_nil e)
    | ok p =>
      rw [pollTrace] at h
      by_cases hd : op0.done = true
      · rw [if_pos hd] at h
        injection h with h2
        injection h2 with h3 h4
        subst h3
        intro e he
        exact absurd he (List.not_mem_nil e)
      · rw [if_neg hd] at h
        cases hrec : pollTrace p rest with
        | none =>
          rw [hrec] at h
          exact Option.noConfusion h
        | some tr =>
          rw [hrec] at h
          simp only [Option.map_some', Option.some.injEq] at h
          have ht : Ev.sleep 5000 :: Ev.getVideosOperation :: tr.1 = t :=
            congrArg Prod.fst h
          subst ht
          intro e he
          rcases List.mem_cons.mp he with rfl | he2
          · exact Or.inl rfl
          · rcases List.mem_cons.mp he2 with rfl | he3
            · exact Or.inr rfl
            · exact ih p tr.1 tr.2 (by rw [hrec]) e he3

/-- Claim C4: when the poll loop terminates with an operation that reports
done=true but carries no result URI, `generateVideo` fails with
GenerationFailed and its trace contains no download attempt. -/
theorem generateVideo_no_uri_fails (key : String) (hk : key ≠ "")
    (op0 : VideoOp) (polls : List (Except String VideoOp)) (t : List Ev) (f : VideoOp)
    (hp : pollTrace op0 polls = some (t, Except.ok f))
    (hu : f.resultUri = none) :
    generateVideo (some key) (Except.ok op0) polls =
      some (Ev.generateVideos :: t, Except.error GenError.GenerationFailed) ∧
    ∀ uri, Ev.fetchDownload uri ∉ Ev.generateVideos :: t := by
  constructor
  · simp [generateVideo, getAI, hk, hp, hu]
  · intro uri hmem
    rcases List.mem_cons.mp hmem with h | h
    · exact Ev.noConfusion h
    · rcases pollTrace_events op0 polls t (Except.ok f) hp _ h with h' | h' <;>
        exact Ev.noConfusion h'

/-- Witness for C4: an operation already done with no URI fails with
GenerationFailed and performs no download. -/
theorem generateVideo_no_uri_fails_witness :
    generateVideo (some "k") (Except.ok ⟨true, none⟩) [] =
      some ([Ev.generateVideos], Except.error GenError.GenerationFailed) ∧
    ∀ uri, Ev.fetchDownload uri ∉ [Ev.generateVideos] :=
  generateVideo_no_uri_fails "k" (by decide) ⟨true, none⟩ [] [] ⟨true, none⟩ rfl rfl

theorem countChecks_flatten_replicate (n : Nat) :
    countChecks (List.replicate n [Ev.sleep 5000, Ev.getVideosOperation]).flatten = n := by
  induction n with
  | zero => rfl
  | succ m ih =>
    rw [List.replicate_succ, List.flatten_cons, countChecks, List.countP_append]
    rw [countChecks] at ih
    rw [ih]
    rw [show List.countP (fun e => decide (e = Ev.getVideosOperation))
          [Ev.sleep 5000, Ev.getVideosOperation] = 1 from rfl]
    omega

/-- Claim C7: a terminating run of the poll loop consists of exactly `n`
sleep-then-check iterations and nothing else; no check is ever issued when
the submitted operation already reported done=true; the i-th re-fetch beyond
the first happens only because the previous re-fetch reported done=false; and
the run ends at the first done=true report or at the first thrown error, so
polling stops permanently there. -/
theorem pollTrace_only_while_not_done (op0 : VideoOp)
    (polls : List (Except String VideoOp)) (t : List Ev) (r : Except String VideoOp)
    (h : pollTrace op0 polls = some (t, r)) :
    ∃ n, t = (List.replicate n [Ev.sleep 5000, Ev.getVideosOperation]).flatten ∧
      countChecks t = n ∧
      (op0.done = true → n = 0) ∧
      (1 ≤ n → op0.done = false) ∧
      (∀ i, i + 1 < n →
        ∃ p, polls.get? i = some (Except.ok p) ∧ p.done = false) ∧
      ((∃ f, r = Except.ok f ∧ f.done = true) ∨ ∃ e, r = Except.error e) := by
  induction polls generalizing op0 t r with
  | nil =>
    rw [pollTrace] at h
    by_cases hd : op0.done = true
    · rw [if_pos hd] at h
      injection h with h2
      injection h2 with h3 h4
      subst h3
      refine ⟨0, rfl, rfl, fun _ => rfl, fun h1 => absurd h1 (by omega), ?_, ?_⟩
      · intro i hi
        exact absurd hi (by omega)
      · exact Or.inl ⟨op0, h4.symm, hd⟩
    · rw [if_neg hd] at h
      exact Option.noConfusion h
  | cons head rest ih =>
    cases head with
    | error err =>
      rw [pollTrace] at h
      by_cases hd : op0.done = true
      · rw [if_pos hd] at h
        injection h with h2
        injection h2 with h3 h4
        subst h3
        refine ⟨0, rfl, rfl, fun _ => rfl, fun h1 => absurd h1 (by omega), ?_, ?_⟩
        · intro i hi
          exact absurd hi (by omega)
        · exact Or.inl ⟨op0, h4.symm, hd⟩
      · rw [if_neg hd] at h
        injection h with h2
        injection h2 with h3 h4
        subst h3
        refine ⟨1, by simp, by decide, fun h1 => absurd h1 hd, ?_, ?_, ?_⟩
        · intro _
          exact Bool.not_eq_true op0.done ▸ hd
        · intro i hi
          exact absurd hi (by omega)
        · exact Or.inr ⟨err, h4.symm⟩
    | ok p =>
      rw [pollTrace] at h
      by_cases hd : op0.done = true
      · rw [if_pos hd] at h
        injection h with h2
        injection h2 with h3 h4
        subst h3
        refine ⟨0, rfl, rfl, fun _ => rfl, fun h1 => absurd h1 (by omega), ?_, ?_⟩
        · intro i hi
          exact absurd hi (by omega)
        · exact Or.inl ⟨op0, h4.symm, hd⟩
      · rw [if_neg hd] at h
        cases hrec : pollTrace p rest with
        | none =>
          rw [hrec] at h
          exact Option.noConfusion h
        | some tr =>
          rw [hrec] at h
          simp only [Option.map_some', Option.some.injEq] at h
          have ht : Ev.sleep 5000 :: Ev.getVideosOperation :: tr.1 = t :=
            congrArg Prod.fst h
          have hr : tr.2 = r := congrArg Prod.snd h
          subst ht
          obtain ⟨n, htr, hcount, hdone0, hpos, hprev, hterm⟩ :=
            ih p tr.1 tr.2 (by rw [hrec])
          refine ⟨n + 1, ?_, ?_, fun hct => absurd hct hd, ?_, ?_, ?_⟩
          · rw [List.replicate_succ, List.flatten_cons, htr]
            rfl
          · rw [countChecks] at hcount ⊢
            simp only [List.countP_cons]
            simp only [hcount]
            rfl
          · intro _
            exact Bool.not_eq_true op0.done ▸ hd
          · intro i hi
            match i with
            | 0 =>
              refine ⟨p, rfl, ?_⟩
              have hn : 1 ≤ n := by omega
              have := hdone0
              by_cases hpd : p.done = true
              · exact absurd (this hpd) (by omega)
              · exact Bool.not_eq_true p.done ▸ hpd
            | Nat.succ j =>
              have hj : j + 1 < n := by omega
              obtain ⟨q, hq1, hq2⟩ := hprev j hj
              exact ⟨q, by rw [List.get?_cons_succ]; exact hq1, hq2⟩
          · rw [← hr]
            exact hterm

/-- Witness for C7 at a concrete run: an operation that is already done is
never re-fetched (zero checks) and the run is terminal at done=true. -/
theorem pollTrace_only_while_not_done_witness :
    ∃ n, ([] : List Ev) =
        (List.replicate n [Ev.sleep 5000, Ev.getVideosOperation]).flatten ∧
      countChecks [] = n ∧
      ((⟨true, some "u"⟩ : VideoOp).done = true → n = 0) ∧
      (1 ≤ n → (⟨true, some "u"⟩ : VideoOp).done = false) ∧
      (∀ i, i + 1 < n →
        ∃ p, ([] : List (Except String VideoOp)).get? i = some (Except.ok p) ∧
          p.done = false) ∧
      ((∃ f, (Except.ok (⟨true, some "u"⟩ : VideoOp) : Except String VideoOp) =
          Except.ok f ∧ f.done = true) ∨
        ∃ e, (Except.ok (⟨true, some "u"⟩ : VideoOp) : Except String VideoOp) =
          Except.error e) :=
  pollTrace_only_while_not_done ⟨true, some "u"⟩ [] [] (Except.ok ⟨true, some "u"⟩) rfl

/-- Claim C3: with no API key configured (or a falsy empty one), every
capability fails with MissingCredential and issues no external call at all:
the trace component is empty. -/
theorem missing_key_fails_all (env : Option String) (h : env = none ∨ env = some "")
    (rt : Option String) (code instr fname msg : String)
    (grounding : Option (List String)) (resp : Option (List Part))
    (prompt ar sz : String) (sub : Except String VideoOp)
    (polls : List (Except String VideoOp)) (ib prompt2 : String) :
    editCode env rt code instr fname = ([], Except.error GenError.MissingCredential) ∧
    chat env rt grounding msg = ([], Except.error GenError.MissingCredential) ∧
    generateImage env resp prompt ar sz =
      ([], Except.error GenError.MissingCredential) ∧
    generateVideo env sub polls = some ([], Except.error GenError.MissingCredential) ∧
    analyzeImage env rt ib prompt2 =
      ([], none, Except.error GenError.MissingCredential) ∧
    connectLive env = ([], Except.error GenError.MissingCredential) := by
  have hg : getAI env = Except.error GenError.MissingCredential := by
    rcases h with rfl | rfl
    · rfl
    · rfl
  refine ⟨?_, ?_, ?_, ?_, ?_, ?_⟩ <;>
    simp [editCode, chat, generateImage, generateVideo, analyzeImage, connectLive, hg]

/-- Witness for C3 at the concrete empty environment. -/
theorem missing_key_fails_all_witness :
    connectLive none = ([], Except.error GenError.MissingCredential) ∧
    editCode none none "c" "i" "f.ts" = ([], Except.error GenError.MissingCredential) :=
  ⟨(missing_key_fails_all none (Or.inl rfl) none "c" "i" "f.ts" "m" none none
      "p" "1:1" "1K" (Except.ok ⟨false, none⟩) [] "img" "p2").2.2.2.2.2,
   (missing_key_fails_all none (Or.inl rfl) none "c" "i" "f.ts" "m" none none
      "p" "1:1" "1K" (Except.ok ⟨false, none⟩) [] "img" "p2").1⟩

/-- Claim C5: with a valid key, `generateImage` resolves with exactly the
`data:image/png;base64,` prefix followed by the provider payload untouched
whenever the response contains an image part, and fails with NoResultProduced
whenever it contains none (including an absent candidate/content). -/
theorem generateImage_data_uri_or_error (key : String) (resp : Option (List Part))
    (prompt ar sz : String) (hk : key ≠ "") :
    (∀ parts p d, resp = some parts → firstImagePart parts = some p →
        p.inlineData = some d →
        generateImage (some key) resp prompt ar sz =
          ([Ev.generateContent], Except.ok ("data:image/png;base64," ++ d))) ∧
    ((resp = none ∨ ∃ parts, resp = some parts ∧ firstImagePart parts = none) →
      generateImage (some key) resp prompt ar sz =
        ([Ev.generateContent], Except.error GenError.NoResultProduced)) := by
  constructor
  · intro parts p d hresp hfind hdata
    subst hresp
    simp [generateImage, getAI, hk, hfind, hdata]
  · rintro (rfl | ⟨parts, rfl, hnone⟩)
    · simp [generateImage, getAI, hk]
    · simp [generateImage, getAI, hk, hnone]

/-- Witness for C5: a response with one inline-data part resolves with the
prefixed payload; an absent content resolves with NoResultProduced. -/
theorem generateImage_data_uri_or_error_witness :
    generateImage (some "k") (some [⟨some "abc"⟩]) "p" "1:1" "1K" =
      ([Ev.generateContent], Except.ok ("data:image/png;base64," ++ "abc")) ∧
    generateImage (some "k") none "p" "1:1" "1K" =
      ([Ev.generateContent], Except.error GenError.NoResultProduced) :=
  ⟨(generateImage_data_uri_or_error "k" (some [⟨some "abc"⟩]) "p" "1:1" "1K"
      (by decide)).1 [⟨some "abc"⟩] ⟨some "abc"⟩ "abc" rfl rfl rfl,
   (generateImage_data_uri_or_error "k" none "p" "1:1" "1K" (by decide)).2
      (Or.inl rfl)⟩

theorem splitComma_head :
    ∀ l : List Char, ∃ t,
      splitComma l = l.takeWhile (fun c => !decide (c = ',')) :: t := by
  intro l
  induction l with
  | nil => exact ⟨[], rfl⟩
  | cons c rest ih =>
    by_cases hc : c = ','
    · subst hc
      refine ⟨splitComma rest, ?_⟩
      rw [splitComma, if_pos rfl]
      simp [List.takeWhile]
    · obtain ⟨t, ht⟩ := ih
      refine ⟨t, ?_⟩
      rw [splitComma, if_neg hc, ht]
      simp [List.takeWhile, hc]

theorem splitComma_append_comma (a r : List Char) (ha : ∀ c ∈ a, c ≠ ',') :
    splitComma (a ++ ',' :: r) = a :: splitComma r := by
  induction a with
  | nil =>
    rw [List.nil_append, splitComma, if_pos rfl]
  | cons c a' ih =>
    have hc : c ≠ ',' := ha c (List.mem_cons_self c a')
    have ha' : ∀ x ∈ a', x ≠ ',' := fun x hx => ha x (List.mem_cons_of_mem c hx)
    rw [List.cons_append, splitComma, if_neg hc, ih ha']

theorem splitComma_no_comma (l : List Char) (hl : ∀ c ∈ l, c ≠ ',') :
    splitComma l = [l] := by
  induction l with
  | nil => rfl
  | cons c rest ih =>
    have hc : c ≠ ',' := hl c (List.mem_cons_self c rest)
    have hrest : ∀ x ∈ rest, x ≠ ',' := fun x hx => hl x (List.mem_cons_of_mem c hx)
    rw [splitComma, if_neg hc, ih hrest]

/-- Claim C10, counterexample: on the input `"a,b,c"` (which contains two
commas) the payload `analyzeImage` sends is the second comma-separated field
`"b"`, not the substring after the first comma `"b,c"`; so the claim that the
payload is exactly the substring after the first comma is false. -/
theorem analyzeImage_split_cex :
    analyzeImagePayload "a,b,c" = some "b" ∧
    ("b" : String) ≠ "b,c" ∧
    (analyzeImage (some "k") none "a,b,c" "p").2.1 =
      some ⟨some "b", "image/png", "p"⟩ := by
  refine ⟨by decide, by decide, rfl⟩

/-- Claim C10, amended: `analyzeImage` splits its input at commas and sends
the second field (the substring after the first comma, truncated at the next
comma if any) as the image payload; when the portion after the first comma
has no further comma — the data-URI case — that is exactly the substring
after the first comma; for every input containing no comma the payload sent
is absent rather than the call failing with an input-validation error, and
the call still resolves with the provider text. -/
theorem analyzeImage_second_field (a r : List Char) (s : String) (key : String)
    (rt : Option String) (prompt : String) (hk : key ≠ "")
    (ha : ∀ c ∈ a, c ≠ ',') (hs : ∀ c ∈ s.data, c ≠ ',') :
    analyzeImagePayload (String.mk (a ++ ',' :: r)) =
      some (String.mk (r.takeWhile (fun c => !decide (c = ',')))) ∧
    ((∀ c ∈ r, c ≠ ',') →
      analyzeImagePayload (String.mk (a ++ ',' :: r)) = some (String.mk r)) ∧
    analyzeImagePayload s = none ∧
    (analyzeImage (some key) rt s prompt).2.1 =
      some ⟨none, "image/png", prompt⟩ ∧
    (analyzeImage (some key) rt s prompt).2.2 = Except.ok rt := by
  have hsplit := splitComma_append_comma a r ha
  have hpay : analyzeImagePayload (String.mk (a ++ ',' :: r)) =
      some (String.mk (r.takeWhile (fun c => !decide (c = ',')))) := by
    rw [analyzeImagePayload]
    rw [show (String.mk (a ++ ',' :: r)).data = a ++ ',' :: r from rfl]
    rw [hsplit]
    obtain ⟨t, ht⟩ := splitComma_head r
    rw [show (a :: splitComma r).get? 1 = (splitComma r).get? 0 from rfl]
    rw [ht]
    rfl
  refine ⟨hpay, ?_, ?_, ?_, ?_⟩
  · intro hr
    rw [hpay, List.takeWhile_eq_self_iff.mpr ?_]
    intro c hc
    simpa using hr c hc
  · rw [analyzeImagePayload, splitComma_no_comma s.data hs]
    rfl
  · rw [analyzeImage]
    rw [show getAI (some key) = Except.ok key from by rw [getAI, if_neg hk]]
    rw [analyzeImagePayload, splitComma_no_comma s.data hs]
    rfl
  · rw [analyzeImage]
    rw [show getAI (some key) = Except.ok key from by rw [getAI, if_neg hk]]

/-- Witness for C10's amended theorem at concrete inputs: for the data-URI
shaped input the payload is everything after the first comma; for a
comma-free input the payload is absent and the call still resolves. -/
theorem analyzeImage_second_field_witness :
    analyzeImagePayload (String.mk ("data:image/png;base64".data ++ ',' :: "XYZ".data)) =
      some (String.mk ("XYZ".data.takeWhile (fun c => !decide (c = ',')))) ∧
    ((∀ c ∈ "XYZ".data, c ≠ ',') →
      analyzeImagePayload
          (String.mk ("data:image/png;base64".data ++ ',' :: "XYZ".data)) =
        some (String.mk "XYZ".data)) ∧
    analyzeImagePayload "nocomma" = none ∧
    (analyzeImage (some "k") (some "txt") "nocomma" "p").2.1 =
      some ⟨none, "image/png", "p"⟩ ∧
    (analyzeImage (some "k") (some "txt") "nocomma" "p").2.2 =
      Except.ok (some "txt") :=
  analyzeImage_second_field "data:image/png;base64".data "XYZ".data "nocomma" "k"
    (some "txt") "p" (by decide) (by decide) (by decide)

/-- Claim C6: the encode step clamps each sample to [-1, 1] and scales by
0x7FFF, so 0.5 quantizes to 16383 and -1.0 quantizes to -32767; every
quantized sample lies in [-32767, 32767] (in particular -32768 is never
produced); and the decode step divides by 0x7FFF, so 16383 decodes to a
value in [0.4999, 0.5), i.e. approximately 0.4999. -/
theorem audio_quantization :
    encodeSample (1/2) = 16383 ∧
    encodeSample (-1) = -32767 ∧
    (∀ x : ℚ, -32767 ≤ encodeSample x ∧ encodeSample x ≤ 32767 ∧
      encodeSample x ≠ -32768) ∧
    4999/10000 ≤ decodeSample 16383 ∧ decodeSample 16383 < 1/2 := by
  have hrange : ∀ x : ℚ, -32767 ≤ truncQ (clampSample x * 32767) ∧
      truncQ (clampSample x * 32767) ≤ 32767 := by
    intro x
    have hc1 : (-1 : ℚ) ≤ clampSample x := le_max_left _ _
    have hc2 : clampSample x ≤ 1 := max_le (by norm_num) (min_le_left _ _)
    have hm1 : (-32767 : ℚ) ≤ clampSample x * 32767 := by nlinarith
    have hm2 : clampSample x * 32767 ≤ 32767 := by nlinarith
    rw [truncQ]
    split
    · constructor
      · have h0 : (0 : ℤ) ≤ ⌊clampSample x * 32767⌋ := Int.floor_nonneg.mpr (by assumption)
        omega
      · have := Int.floor_mono hm2
        rwa [show ((32767 : ℚ)) = ((32767 : ℤ) : ℚ) by norm_num,
          Int.floor_intCast] at this
    · constructor
      · have := Int.ceil_mono hm1
        rwa [show ((-32767 : ℚ)) = ((-32767 : ℤ) : ℚ) by norm_num,
          Int.ceil_intCast] at this
      · have hle : clampSample x * 32767 ≤ 0 := le_of_not_le (by assumption)
        have := Int.ceil_mono hle
        rw [show ((0 : ℚ)) = ((0 : ℤ) : ℚ) by norm_num, Int.ceil_intCast] at this
        omega
  have hid : ∀ m : ℤ, -32767 ≤ m → m ≤ 32767 → toInt16 m = m := by
    intro m h1 h2
    rw [toInt16, Int.emod_eq_of_lt (by omega) (by omega)]
    omega
  refine ⟨?_, ?_, ?_, ?_, ?_⟩
  · have hcl : clampSample (1/2) = 1/2 := by
      rw [clampSample, min_eq_right (by norm_num), max_eq_right (by norm_num)]
    have htr : truncQ ((1 : ℚ)/2 * 32767) = 16383 := by
      rw [truncQ, if_pos (by norm_num), Int.floor_eq_iff]
      norm_num
    rw [encodeSample, hcl, htr]
    decide
  · have hcl : clampSample (-1) = -1 := by
      rw [clampSample, min_eq_right (by norm_num), max_eq_right (by norm_num)]
    have htr : truncQ ((-1 : ℚ) * 32767) = -32767 := by
      rw [truncQ, if_neg (by norm_num)]
      rw [show ((-1 : ℚ) * 32767) = ((-32767 : ℤ) : ℚ) by norm_num, Int.ceil_intCast]
    rw [encodeSample, hcl, htr]
    decide
  · intro x
    obtain ⟨h1, h2⟩ := hrange x
    rw [encodeSample, hid _ h1 h2]
    exact ⟨h1, h2, by omega⟩
  · rw [decodeSample]
    norm_num
  · rw [decodeSample]
    norm_num

/-- Claim C9: a live-session message that carries (non-empty) partial text
appends a single space followed by that text to the transcript, so the
previous transcript is a prefix of the new one and it strictly grows; and no
message ever shrinks the transcript. -/
theorem transcript_append_monotone (prev : String) (pt : Option String)
    (txt : String) (h1 : pt = some txt) (h2 : txt ≠ "") :
    transcriptAfterMessage prev pt = prev ++ " " ++ txt ∧
    prev.data <+: (transcriptAfterMessage prev pt).data ∧
    prev.length < (transcriptAfterMessage prev pt).length ∧
    ∀ q : Option String, prev.length ≤ (transcriptAfterMessage prev q).length := by
  subst h1
  have heq : transcriptAfterMessage prev (some txt) = prev ++ " " ++ txt := by
    rw [transcriptAfterMessage]
    exact if_neg h2
  refine ⟨heq, ?_, ?_, ?_⟩
  · rw [heq, String.data_append, String.data_append, List.append_assoc]
    exact List.prefix_append _ _
  · rw [heq, String.length_append, String.length_append]
    have htl : 0 < txt.length := by
      have hd : txt.data ≠ [] := fun hnil => h2 (by cases txt; simp_all)
      exact List.length_pos.mpr hd
    have hsp : (" " : String).length = 1 := rfl
    omega
  · intro q
    match q with
    | none => exact Nat.le_refl _
    | some t =>
      rw [transcriptAfterMessage]
      by_cases ht : t = ""
      · rw [if_pos ht]
      · rw [if_neg ht, String.length_append, String.length_append]
        omega

/-- Witness for C9 at concrete strings. -/
theorem transcript_append_monotone_witness :
    transcriptAfterMessage "hello" (some "world") = "hello" ++ " " ++ "world" :=
  (transcript_append_monotone "hello" (some "world") "world" rfl (by decide)).1

end BearAI
